import Mathlib

/-!
Shallow embedding of the calendar core of `obsidian-life-in-weeks-calendar`.

JavaScript `Date` values at local midnight are modelled by their local
calendar day number `z : ℤ` (days since 1970-01-01 in the host's local
calendar; 0 = Thursday 1970-01-01).  The year/month/day components that
`getFullYear`/`getMonth`/`getDate` return are recovered with
`civilFromDays`, and the ECMAScript `MakeDay` construction (used by
`new Date(y, m, d)` and by the date-fns day arithmetic) is modelled with
`daysFromCivil`.  Local time is treated as a uniform day scale (DST
discontinuities do not move local calendar days, which is all the
repository's week arithmetic uses).  JavaScript strings are modelled as
`List Char`, and JavaScript numbers (where a non-integer can occur) as `ℚ`
with `none : Option ℚ` standing for `NaN`.
-/

/-- Days before the March-based year `t` (year `t` running from March 1 of
civil year `t` to the end of February of civil year `t + 1`), counted from
March 1 of year 0 of the proleptic Gregorian calendar. -/
def dBY (t : ℤ) : ℤ :=
  365 * t + t / 4 - t / 100 + t / 400

/-- Days before the year-of-era `r` (`0 ≤ r ≤ 399`) inside one 400-year
Gregorian era of 146097 days. -/
def dBY400 (r : ℤ) : ℤ :=
  365 * r + r / 4 - r / 100

/-- First day-of-year (March-based) of shifted month `mp` (`0` = March …
`11` = February); for `0 ≤ mp ≤ 11` this yields
0, 31, 61, 92, 122, 153, 184, 214, 245, 275, 306, 337. -/
def monthStart (mp : ℤ) : ℤ :=
  (153 * mp + 2) / 5

/-- Day number (days since 1970-01-01) of the civil date `(y, m, d)` of the
proleptic Gregorian calendar, with month `1 ≤ m ≤ 12`; linear in `d`, so it
also models ECMAScript `MakeDay`'s treatment of out-of-range day values. -/
def daysFromCivil (y m d : ℤ) : ℤ :=
  dBY (if m ≤ 2 then y - 1 else y) +
    monthStart (if m ≤ 2 then m + 9 else m - 3) + (d - 1) - 719468

/-- Civil date `(y, m, d)` of the day number `z`: the Gregorian components
a JavaScript `Date` at local day `z` reports through
`getFullYear() / getMonth() + 1 / getDate()`.  The year-of-era is located
with an underestimating candidate `doe / 366` corrected upward at most
once. -/
def civilFromDays (z : ℤ) : ℤ × ℤ × ℤ :=
  let n := z + 719468
  let era := n / 146097
  let doe := n - 146097 * era
  let y0 := doe / 366
  let yoe := if y0 + 1 ≤ 399 ∧ dBY400 (y0 + 1) ≤ doe then y0 + 1 else y0
  let doy := doe - dBY400 yoe
  let mp := (5 * doy + 2) / 153
  let d := doy - monthStart mp + 1
  let m := if mp < 10 then mp + 3 else mp - 9
  (era * 400 + yoe + (if mp < 10 then 0 else 1), m, d)

/-- Year component of a day number. -/
def yearOf (z : ℤ) : ℤ := (civilFromDays z).1

/-- Month component (1–12) of a day number. -/
def monthOf (z : ℤ) : ℤ := (civilFromDays z).2.1

/-- Day-of-month component of a day number. -/
def dayOf (z : ℤ) : ℤ := (civilFromDays z).2.2

theorem dBY400_399 : dBY400 399 = 145731 := by decide

theorem dBY_era (k r : ℤ) (h0 : 0 ≤ r) (h1 : r ≤ 399) :
    dBY (k * 400 + r) = 146097 * k + dBY400 r := by
  unfold dBY dBY400
  omega

theorem civilFromDays_core (n era doe y0 yoe doy mp d m yy : ℤ)
    (hera : era = n / 146097) (hdoe : doe = n - 146097 * era)
    (hy0 : y0 = doe / 366)
    (hyoe : yoe = if y0 + 1 ≤ 399 ∧ dBY400 (y0 + 1) ≤ doe then y0 + 1 else y0)
    (hdoy : doy = doe - dBY400 yoe) (hmp : mp = (5 * doy + 2) / 153)
    (hd : d = doy - monthStart mp + 1)
    (hm : m = if mp < 10 then mp + 3 else mp - 9)
    (hyy : yy = era * 400 + yoe + (if mp < 10 then 0 else 1)) :
    daysFromCivil yy m d = n - 719468 ∧
      1 ≤ m ∧ m ≤ 12 ∧ 1 ≤ d ∧ d ≤ 31 := by
  have hdoe0 : 0 ≤ doe := by omega
  have hdoe1 : doe ≤ 146096 := by omega
  have hyb : 0 ≤ yoe ∧ yoe ≤ 399 ∧ dBY400 yoe ≤ doe ∧ doe - dBY400 yoe ≤ 365 := by
    rw [hyoe]
    unfold dBY400
    split <;> omega
  obtain ⟨hy1, hy2, hy3, hy4⟩ := hyb
  have hdoy0 : 0 ≤ doy := by omega
  have hdoy1 : doy ≤ 365 := by omega
  have hmpb : 0 ≤ mp ∧ mp ≤ 11 ∧ monthStart mp ≤ doy ∧ doy - monthStart mp ≤ 30 := by
    rw [hmp]
    unfold monthStart
    omega
  obtain ⟨hm1, hm2, hm3, hm4⟩ := hmpb
  refine ⟨?_, ?_, ?_, ?_, ?_⟩
  · unfold daysFromCivil
    have hsy : (if m ≤ 2 then yy - 1 else yy) = era * 400 + yoe := by
      rw [hm, hyy]
      split_ifs <;> omega
    have hsm : (if m ≤ 2 then m + 9 else m - 3) = mp := by
      rw [hm]
      split_ifs <;> omega
    rw [hsy, hsm, dBY_era era yoe hy1 hy2]
    omega
  · rw [hm]; split_ifs <;> omega
  · rw [hm]; split_ifs <;> omega
  · omega
  · omega

/-- Core inversion: converting a day number to its civil components and
back is the identity, and the components are a valid-looking Gregorian
date (month in 1–12, day in 1–31). -/
theorem daysFromCivil_civilFromDays (z : ℤ) :
    daysFromCivil (yearOf z) (monthOf z) (dayOf z) = z ∧
      1 ≤ monthOf z ∧ monthOf z ≤ 12 ∧ 1 ≤ dayOf z ∧ dayOf z ≤ 31 := by
  obtain ⟨h1, h2, h3, h4, h5⟩ :=
    civilFromDays_core (z + 719468) _ _ _ _ _ _ _ _ _
      rfl rfl rfl rfl rfl rfl rfl rfl rfl
  refine ⟨?_, ?_, ?_, ?_, ?_⟩
  · have e : daysFromCivil (yearOf z) (monthOf z) (dayOf z) =
        (z + 719468) - 719468 := h1
    omega
  · exact h2
  · exact h3
  · exact h4
  · exact h5

theorem civil_inv (z : ℤ) : daysFromCivil (yearOf z) (monthOf z) (dayOf z) = z :=
  (daysFromCivil_civilFromDays z).1

theorem monthOf_bounds (z : ℤ) : 1 ≤ monthOf z ∧ monthOf z ≤ 12 :=
  ⟨(daysFromCivil_civilFromDays z).2.1, (daysFromCivil_civilFromDays z).2.2.1⟩

theorem dayOf_bounds (z : ℤ) : 1 ≤ dayOf z ∧ dayOf z ≤ 31 :=
  ⟨(daysFromCivil_civilFromDays z).2.2.2.1, (daysFromCivil_civilFromDays z).2.2.2.2⟩

/-- `Date.prototype.getDay`: weekday index 0 (Sunday) … 6 (Saturday);
1970-01-01 (day 0) was a Thursday (4). -/
def jsGetDay (z : ℤ) : ℤ := (z + 4) % 7

/-- date-fns `startOfWeek` (on local-midnight dates): step back to the most
recent day whose weekday equals `ws`. -/
def startOfWeek (z : ℤ) (ws : ℤ) : ℤ :=
  z - ((if jsGetDay z < ws then 7 else 0) + jsGetDay z - ws)

/-- date-fns `nextDay`: the next date strictly after `z` whose weekday is
`day`. -/
def nextDay (z : ℤ) (day : ℤ) : ℤ :=
  let delta := day - jsGetDay z
  z + (if delta ≤ 0 then delta + 7 else delta)

/-- Gregorian leap-year predicate (as in ECMAScript's `DaysInYear`). -/
def isLeapYear (y : ℤ) : Bool :=
  (y % 4 == 0 && y % 100 != 0) || y % 400 == 0

/-- Number of days in month `m` (1–12) of year `y`. -/
def daysInMonth (y m : ℤ) : ℤ :=
  if m = 2 then (if isLeapYear y then 29 else 28)
  else if m = 4 ∨ m = 6 ∨ m = 9 ∨ m = 11 then 30
  else 31

/-- date-fns `addYears` (= `addMonths(date, 12k)`): same month, year
shifted by `k`, day-of-month clamped to the target month's length. -/
def addYears (z k : ℤ) : ℤ :=
  daysFromCivil (yearOf z + k) (monthOf z)
    (min (dayOf z) (daysInMonth (yearOf z + k) (monthOf z)))

/-- ECMAScript `MakeDay` as used by `new Date(y, m0, d)` (0-based month,
arbitrary integer month/day values are normalized; two-digit years map to
1900–1999). -/
def mkJSDate (y m0 d : ℤ) : ℤ :=
  let yr := if 0 ≤ y ∧ y ≤ 99 then 1900 + y else y
  daysFromCivil (yr + m0 / 12) (m0 % 12 + 1) d

/-- JavaScript `Math.trunc` on a rational. -/
def jsTrunc (q : ℚ) : ℤ := if q < 0 then ⌈q⌉ else ⌊q⌋

theorem daysInMonth_bounds (y m : ℤ) :
    28 ≤ daysInMonth y m ∧ daysInMonth y m ≤ 31 := by
  unfold daysInMonth
  split_ifs <;> omega

theorem daysFromCivil_year_lt (y m d d' k : ℤ) (hm : 1 ≤ m) (hm' : m ≤ 12)
    (hd : d ≤ 31) (hd' : 1 ≤ d') (hk : 1 ≤ k) :
    daysFromCivil y m d < daysFromCivil (y + k) m d' := by
  unfold daysFromCivil monthStart dBY
  split_ifs <;> omega

theorem daysFromCivil_year_le (y m d d' k : ℤ) (hm : 1 ≤ m) (hm' : m ≤ 12)
    (hd : d' ≤ d) (hk : k ≤ 0) :
    daysFromCivil (y + k) m d' ≤ daysFromCivil y m d := by
  unfold daysFromCivil monthStart dBY
  split_ifs <;> omega

theorem addYears_gt (z k : ℤ) (hk : 1 ≤ k) : z < addYears z k := by
  have h := daysFromCivil_civilFromDays z
  have hdim := daysInMonth_bounds (yearOf z + k) (monthOf z)
  calc z = daysFromCivil (yearOf z) (monthOf z) (dayOf z) := (civil_inv z).symm
    _ < addYears z k := by
        unfold addYears
        exact daysFromCivil_year_lt _ _ _ _ _ h.2.1 h.2.2.1 h.2.2.2.2 (by omega) hk

theorem addYears_le_self (z k : ℤ) (hk : k ≤ 0) : addYears z k ≤ z := by
  have h := daysFromCivil_civilFromDays z
  calc addYears z k ≤ daysFromCivil (yearOf z) (monthOf z) (dayOf z) := by
        unfold addYears
        exact daysFromCivil_year_le _ _ _ _ _ h.2.1 h.2.2.1 (by omega) hk
    _ = z := civil_inv z

theorem mkJSDate_std (y m d : ℤ) (hy : 100 ≤ y) (hm1 : 1 ≤ m) (hm2 : m ≤ 12) :
    mkJSDate y (m - 1) d = daysFromCivil y m d := by
  have h1 : (if 0 ≤ y ∧ y ≤ 99 then 1900 + y else y) + (m - 1) / 12 = y := by
    split_ifs <;> omega
  have h2 : (m - 1) % 12 + 1 = m := by omega
  simp only [mkJSDate]
  rw [h1, h2]

theorem getDay_startOfWeek (z ws : ℤ) (h0 : 0 ≤ ws) (h1 : ws ≤ 6) :
    jsGetDay (startOfWeek z ws) = ws := by
  unfold startOfWeek jsGetDay
  split_ifs <;> omega

theorem startOfWeek_le (z ws : ℤ) (h0 : 0 ≤ ws) (h1 : ws ≤ 6) :
    startOfWeek z ws ≤ z ∧ z - 6 ≤ startOfWeek z ws := by
  unfold startOfWeek jsGetDay
  split_ifs <;> omega

theorem startOfWeek_fixed (z ws : ℤ) (h : jsGetDay z = ws) :
    startOfWeek z ws = z := by
  unfold startOfWeek
  rw [h]
  simp

theorem startOfWeek_mono (z₁ z₂ ws : ℤ) (h0 : 0 ≤ ws) (h1 : ws ≤ 6)
    (h : z₁ ≤ z₂) : startOfWeek z₁ ws ≤ startOfWeek z₂ ws := by
  unfold startOfWeek jsGetDay
  split_ifs <;> omega

theorem getDay_nextDay (z day : ℤ) (h0 : 0 ≤ day) (h1 : day ≤ 6) :
    jsGetDay (nextDay z day) = day ∧ z < nextDay z day ∧ nextDay z day ≤ z + 7 := by
  simp only [nextDay, jsGetDay]
  split_ifs <;> refine ⟨by omega, by omega, by omega⟩

/-! ### JavaScript strings, decimal rendering and parsing -/

/-- Little-endian decimal digits of `n` (fuel-driven so that it reduces in
the kernel); `natDigitsAux n n` is the digit list of `n`. -/
def natDigitsAux : ℕ → ℕ → List ℕ
  | 0, _ => []
  | _ + 1, 0 => []
  | f + 1, n + 1 => (n + 1) % 10 :: natDigitsAux f ((n + 1) / 10)

def natDigits (n : ℕ) : List ℕ := natDigitsAux n n

/-- The character for the decimal digit `d` (`0 ≤ d ≤ 9`). -/
def digitChar (d : ℕ) : Char := Char.ofNat (48 + d)

/-- Numeric value of a decimal digit character. -/
def digitVal (c : Char) : ℕ := c.toNat - 48

/-- The decimal string JavaScript produces for a natural number
(`String(n)` / template-literal interpolation). -/
def natDec (n : ℕ) : List Char :=
  if n = 0 then ['0'] else ((natDigits n).reverse.map digitChar)

/-- The decimal string JavaScript produces for an integer. -/
def intDec (z : ℤ) : List Char :=
  if z < 0 then '-' :: natDec z.natAbs else natDec z.toNat

/-- `String(n).padStart(2, '0')`. -/
def pad2 (n : ℕ) : List Char :=
  List.replicate (2 - (natDec n).length) '0' ++ natDec n

/-- Value of a decimal digit string (what `Number(s)` returns on a pure
digit string). -/
def parseNat (s : List Char) : ℕ :=
  s.foldl (fun a c => 10 * a + digitVal c) 0

theorem natDigitsAux_zero (f : ℕ) : natDigitsAux f 0 = [] := by
  cases f <;> rfl

theorem natDigitsAux_fuel (f₁ : ℕ) : ∀ f₂ n, n ≤ f₁ → n ≤ f₂ →
    natDigitsAux f₁ n = natDigitsAux f₂ n := by
  induction f₁ with
  | zero =>
    intro f₂ n h1 _
    interval_cases n
    rw [natDigitsAux_zero, natDigitsAux_zero]
  | succ f ih =>
    intro f₂ n h1 h2
    cases n with
    | zero => rw [natDigitsAux_zero, natDigitsAux_zero]
    | succ m =>
      cases f₂ with
      | zero => omega
      | succ g =>
        show (m + 1) % 10 :: natDigitsAux f ((m + 1) / 10) =
          (m + 1) % 10 :: natDigitsAux g ((m + 1) / 10)
        have hd : (m + 1) / 10 ≤ m := by omega
        rw [ih g ((m + 1) / 10) (by omega) (by omega)]

theorem natDigits_succ (n : ℕ) (h : n ≠ 0) :
    natDigits n = n % 10 :: natDigits (n / 10) := by
  unfold natDigits
  cases n with
  | zero => omega
  | succ m =>
    show (m + 1) % 10 :: natDigitsAux m ((m + 1) / 10) = _
    rw [natDigitsAux_fuel m ((m + 1) / 10) ((m + 1) / 10) (by omega) (by omega)]

theorem natDigits_lt (n : ℕ) : ∀ d ∈ natDigits n, d < 10 := by
  induction n using Nat.strong_induction_on with
  | _ n ih =>
    rcases Nat.eq_zero_or_pos n with h | h
    · subst h
      intro d hd
      simp [natDigits, natDigitsAux_zero] at hd
    · rw [natDigits_succ n (by omega)]
      intro d hd
      rcases List.mem_cons.mp hd with h1 | h1
      · omega
      · exact ih (n / 10) (by omega) d h1

theorem digitVal_digitChar (d : ℕ) (h : d < 10) : digitVal (digitChar d) = d := by
  interval_cases d <;> decide

theorem digitChar_isDigit (d : ℕ) (h : d < 10) : (digitChar d).isDigit = true := by
  interval_cases d <;> decide

theorem parse_digits_aux (n : ℕ) (h : n ≠ 0) : ∀ acc : ℕ,
    List.foldl (fun a c => 10 * a + digitVal c) acc ((natDigits n).reverse.map digitChar) =
      acc * 10 ^ (natDigits n).length + n := by
  induction n using Nat.strong_induction_on with
  | _ n ih =>
    intro acc
    rw [natDigits_succ n h]
    rcases Nat.eq_zero_or_pos (n / 10) with h10 | h10
    · have hz : natDigits (n / 10) = [] := by
        rw [h10]
        simp [natDigits, natDigitsAux_zero]
      simp only [hz, List.reverse_cons, List.reverse_nil, List.nil_append,
        List.map_cons, List.map_nil, List.foldl_cons, List.foldl_nil,
        List.length_cons, List.length_nil]
      rw [digitVal_digitChar (n % 10) (by omega)]
      have : n % 10 = n := by omega
      rw [this]
      ring
    · have hrec := ih (n / 10) (by omega) (by omega) acc
      simp only [List.reverse_cons, List.map_append, List.map_cons, List.map_nil,
        List.foldl_append, List.foldl_cons, List.foldl_nil, List.length_cons]
      rw [hrec, digitVal_digitChar (n % 10) (by omega)]
      have hn : 10 * (acc * 10 ^ (natDigits (n / 10)).length + n / 10) + n % 10 =
          acc * (10 ^ (natDigits (n / 10)).length * 10) + (10 * (n / 10) + n % 10) := by
        ring
      rw [hn, ← pow_succ]
      omega

theorem parseNat_natDec (n : ℕ) : parseNat (natDec n) = n := by
  unfold parseNat natDec
  split_ifs with h
  · subst h
    decide
  · rw [parse_digits_aux n h 0]
    ring

theorem natDec_isDigit (n : ℕ) : ∀ c ∈ natDec n, c.isDigit = true := by
  unfold natDec
  split_ifs with h
  · intro c hc
    simp at hc
    subst hc
    decide
  · intro c hc
    simp only [List.mem_map, List.mem_reverse] at hc
    obtain ⟨d, hd, rfl⟩ := hc
    exact digitChar_isDigit d (natDigits_lt n d hd)

theorem natDec_len1 (n : ℕ) (h1 : n ≤ 9) : (natDec n).length = 1 := by
  unfold natDec
  split_ifs with h
  · rfl
  · rw [natDigits_succ n h]
    have hz : natDigits (n / 10) = [] := by
      have : n / 10 = 0 := by omega
      rw [this]
      simp [natDigits, natDigitsAux_zero]
    simp [hz]

theorem natDec_succ (n : ℕ) (h : 10 ≤ n) :
    (natDec n).length = (natDec (n / 10)).length + 1 := by
  unfold natDec
  have h1 : ¬ n = 0 := by omega
  have h2 : ¬ n / 10 = 0 := by omega
  rw [if_neg h1, if_neg h2, natDigits_succ n h1]
  simp

theorem natDec_len2 (n : ℕ) (h0 : 10 ≤ n) (h1 : n ≤ 99) : (natDec n).length = 2 := by
  rw [natDec_succ n h0, natDec_len1 (n / 10) (by omega)]

theorem natDec_len3 (n : ℕ) (h0 : 100 ≤ n) (h1 : n ≤ 999) : (natDec n).length = 3 := by
  rw [natDec_succ n (by omega), natDec_len2 (n / 10) (by omega) (by omega)]

theorem natDec_len4 (n : ℕ) (h0 : 1000 ≤ n) (h1 : n ≤ 9999) : (natDec n).length = 4 := by
  rw [natDec_succ n (by omega), natDec_len3 (n / 10) (by omega) (by omega)]

theorem pad2_spec (n : ℕ) (h : n ≤ 99) :
    (pad2 n).length = 2 ∧ parseNat (pad2 n) = n ∧ ∀ c ∈ pad2 n, c.isDigit = true := by
  unfold pad2
  rcases Nat.lt_or_ge n 10 with h10 | h10
  · have hl := natDec_len1 n (by omega)
    rw [hl]
    refine ⟨by simp [hl], ?_, ?_⟩
    · show parseNat ('0' :: natDec n) = n
      have : parseNat ('0' :: natDec n) = parseNat (natDec n) := by
        unfold parseNat
        simp [digitVal]
      rw [this, parseNat_natDec]
    · intro c hc
      simp only [List.mem_append, List.mem_replicate] at hc
      rcases hc with ⟨_, rfl⟩ | hc
      · decide
      · exact natDec_isDigit n c hc
  · have hl := natDec_len2 n h10 h
    rw [hl]
    refine ⟨by simp [hl], ?_, ?_⟩
    · show parseNat (List.replicate 0 '0' ++ natDec n) = n
      simp only [List.replicate, List.nil_append]
      exact parseNat_natDec n
    · intro c hc
      simp only [List.mem_append, List.mem_replicate] at hc
      rcases hc with ⟨h0, rfl⟩ | hc
      · omega
      · exact natDec_isDigit n c hc

/-! ### Canonical week key format (`src/lib/utils.ts`) -/

/-- `formatTimezoneOffset` from `utils.ts`: `"+HH:MM"`/`"-HH:MM"`, with the
sign flipped because `getTimezoneOffset` is positive behind UTC. -/
def formatTimezoneOffset (offsetMinutes : ℤ) : List Char :=
  (if 0 < offsetMinutes then '-' else '+') ::
    (pad2 (offsetMinutes.natAbs / 60) ++ ':' :: pad2 (offsetMinutes.natAbs % 60))

/-- `dateToWeeklyNoteRecordKeyFormat` from `utils.ts`:
`week-${year}-${month}-${day}T00:00:00${offset}` for the valid date `z`,
where `tz z` is the host timezone offset (in minutes, as
`getTimezoneOffset` reports it) in effect on day `z`. -/
def dateToWeeklyNoteRecordKeyFormat (tz : ℤ → ℤ) (z : ℤ) : List Char :=
  ['w', 'e', 'e', 'k', '-'] ++
    ((intDec (yearOf z) ++ '-' :: (pad2 (monthOf z).toNat ++ '-' :: pad2 (dayOf z).toNat)) ++
      ('T' :: '0' :: '0' :: ':' :: '0' :: '0' :: ':' :: '0' :: '0' ::
        formatTimezoneOffset (tz z)))

/-- Consume exactly `k` decimal-digit characters. -/
def digitsRun : ℕ → List Char → Option (List Char)
  | 0, s => some s
  | _ + 1, [] => none
  | k + 1, c :: t => if c.isDigit then digitsRun k t else none

/-- The test `/^\d{4}-\d{2}-\d{2}$/.test s` from `createLocalDateYYYYMMDD`. -/
def matchesYYYYMMDD (s : List Char) : Bool :=
  match digitsRun 4 s with
  | some ('-' :: r1) =>
    match digitsRun 2 r1 with
    | some ('-' :: r2) =>
      match digitsRun 2 r2 with
      | some [] => true
      | _ => false
    | _ => false
  | _ => false

/-- Accumulator worker for `String.prototype.split('-')`. -/
def splitAux : List Char → List Char → List (List Char)
  | cur, [] => [cur.reverse]
  | cur, c :: t => if c = '-' then cur.reverse :: splitAux [] t else splitAux (c :: cur) t

/-- JavaScript `s.split('-')`. -/
def splitOnDash (s : List Char) : List (List Char) := splitAux [] s

/-- `createLocalDateYYYYMMDD` from `utils.ts`: reject empty or non
`YYYY-MM-DD` strings (the code throws; modelled as `none`), then build the
date with `new Date(year, month - 1, day)` from the `split('-')` parts. -/
def createLocalDateYYYYMMDD (s : List Char) : Option ℤ :=
  if s.length = 0 then none
  else if matchesYYYYMMDD s = false then none
  else
    match splitOnDash s with
    | y :: m :: d :: _ =>
      some (mkJSDate (parseNat y) ((parseNat m : ℤ) - 1) (parseNat d))
    | _ => none

theorem digitsRun_append (A : List Char) : ∀ r, (∀ c ∈ A, c.isDigit = true) →
    digitsRun A.length (A ++ r) = some r := by
  induction A with
  | nil => intro r _; rfl
  | cons c t ih =>
    intro r h
    show digitsRun (t.length + 1) (c :: (t ++ r)) = some r
    unfold digitsRun
    rw [h c (by simp), if_pos rfl]
    exact ih r (fun x hx => h x (by simp [hx]))

theorem not_dash_of_digits (A : List Char) (h : ∀ c ∈ A, c.isDigit = true) :
    '-' ∉ A := by
  intro hm
  have := h '-' hm
  simp [Char.isDigit] at this

theorem splitAux_nil (cur : List Char) : splitAux cur [] = [cur.reverse] := rfl

theorem splitAux_cons (cur : List Char) (c : Char) (t : List Char) :
    splitAux cur (c :: t) =
      if c = '-' then cur.reverse :: splitAux [] t else splitAux (c :: cur) t := rfl

theorem splitAux_no_dash (A : List Char) : ∀ cur, '-' ∉ A →
    splitAux cur A = [cur.reverse ++ A] := by
  induction A with
  | nil => intro cur _; simp [splitAux_nil]
  | cons c t ih =>
    intro cur h
    have hc : ¬ c = '-' := fun hc => h (by simp [hc])
    rw [splitAux_cons, if_neg hc, ih (c :: cur) (fun hm => h (by simp [hm]))]
    simp

theorem splitAux_dash (A : List Char) : ∀ cur rest, '-' ∉ A →
    splitAux cur (A ++ '-' :: rest) = (cur.reverse ++ A) :: splitAux [] rest := by
  induction A with
  | nil =>
    intro cur rest _
    show splitAux cur ('-' :: rest) = _
    rw [splitAux_cons, if_pos rfl]
    simp
  | cons c t ih =>
    intro cur rest h
    have hc : ¬ c = '-' := fun hc => h (by simp [hc])
    show splitAux cur (c :: (t ++ '-' :: rest)) = _
    rw [splitAux_cons, if_neg hc, ih (c :: cur) rest (fun hm => h (by simp [hm]))]
    simp

theorem matchesYYYYMMDD_true (A B C : List Char)
    (hA : A.length = 4) (hB : B.length = 2) (hC : C.length = 2)
    (hdA : ∀ c ∈ A, c.isDigit = true) (hdB : ∀ c ∈ B, c.isDigit = true)
    (hdC : ∀ c ∈ C, c.isDigit = true) :
    matchesYYYYMMDD (A ++ '-' :: (B ++ '-' :: C)) = true := by
  have h1 : digitsRun 4 (A ++ '-' :: (B ++ '-' :: C)) = some ('-' :: (B ++ '-' :: C)) := by
    rw [← hA]
    exact digitsRun_append A _ hdA
  have h2 : digitsRun 2 (B ++ '-' :: C) = some ('-' :: C) := by
    rw [← hB]
    exact digitsRun_append B _ hdB
  have h3 : digitsRun 2 (C ++ []) = some [] := by
    rw [← hC]
    exact digitsRun_append C _ hdC
  rw [List.append_nil] at h3
  simp [matchesYYYYMMDD, h1, h2, h3]

theorem splitOnDash_date (A B C : List Char)
    (hdA : ∀ c ∈ A, c.isDigit = true) (hdB : ∀ c ∈ B, c.isDigit = true)
    (hdC : ∀ c ∈ C, c.isDigit = true) :
    splitOnDash (A ++ '-' :: (B ++ '-' :: C)) = [A, B, C] := by
  unfold splitOnDash
  rw [splitAux_dash A [] (B ++ '-' :: C) (not_dash_of_digits A hdA),
    splitAux_dash B [] C (not_dash_of_digits B hdB),
    splitAux_no_dash C [] (not_dash_of_digits C hdC)]
  simp

/-- Formatting a date whose year has four digits into the canonical key
and re-parsing the 10-character substring at offset 5 recovers the date,
for every host timezone-offset function. -/
theorem createLocal_key_roundtrip (tz : ℤ → ℤ) (z : ℤ)
    (h1 : 1000 ≤ yearOf z) (h2 : yearOf z ≤ 9999) :
    createLocalDateYYYYMMDD
      (List.take 10 (List.drop 5 (dateToWeeklyNoteRecordKeyFormat tz z))) = some z := by
  obtain ⟨hm1, hm2⟩ := monthOf_bounds z
  obtain ⟨hd1, hd2⟩ := dayOf_bounds z
  have hY : intDec (yearOf z) = natDec (yearOf z).toNat := by
    unfold intDec
    rw [if_neg (by omega)]
  have hYlen : (natDec (yearOf z).toNat).length = 4 := natDec_len4 _ (by omega) (by omega)
  have hYdig := natDec_isDigit (yearOf z).toNat
  obtain ⟨hMlen, hMparse, hMdig⟩ := pad2_spec (monthOf z).toNat (by omega)
  obtain ⟨hDlen, hDparse, hDdig⟩ := pad2_spec (dayOf z).toNat (by omega)
  have hdrop : List.drop 5 (dateToWeeklyNoteRecordKeyFormat tz z) =
      (intDec (yearOf z) ++ '-' :: (pad2 (monthOf z).toNat ++ '-' :: pad2 (dayOf z).toNat)) ++
        ('T' :: '0' :: '0' :: ':' :: '0' :: '0' :: ':' :: '0' :: '0' ::
          formatTimezoneOffset (tz z)) := rfl
  have hlen : (natDec (yearOf z).toNat ++
      '-' :: (pad2 (monthOf z).toNat ++ '-' :: pad2 (dayOf z).toNat)).length = 10 := by
    simp [hYlen, hMlen, hDlen]
  have htake : List.take 10 (List.drop 5 (dateToWeeklyNoteRecordKeyFormat tz z)) =
      natDec (yearOf z).toNat ++
        '-' :: (pad2 (monthOf z).toNat ++ '-' :: pad2 (dayOf z).toNat) := by
    rw [hdrop, hY, ← hlen, List.take_left]
  rw [htake]
  have hmatch := matchesYYYYMMDD_true _ _ _ hYlen hMlen hDlen hYdig hMdig hDdig
  have hsplit := splitOnDash_date _ _ _ hYdig hMdig hDdig
  unfold createLocalDateYYYYMMDD
  rw [if_neg (by rw [hlen]; omega), hmatch, if_neg (by simp), hsplit]
  show some (mkJSDate (parseNat (natDec (yearOf z).toNat))
      ((parseNat (pad2 (monthOf z).toNat) : ℤ) - 1)
      (parseNat (pad2 (dayOf z).toNat))) = some z
  rw [parseNat_natDec, hMparse, hDparse,
    Int.toNat_of_nonneg (by omega : (0 : ℤ) ≤ yearOf z),
    Int.toNat_of_nonneg (by omega : (0 : ℤ) ≤ monthOf z),
    Int.toNat_of_nonneg (by omega : (0 : ℤ) ≤ dayOf z),
    mkJSDate_std (yearOf z) (monthOf z) (dayOf z) (by omega) hm1 hm2,
    civil_inv]

/-! ### Week-start-day conversions and key correction (`src/lib/utils.ts`) -/

/-- `toLocaleLowerCase`, modelled character-wise (adequate for the ASCII
day-name vocabulary these functions compare against). -/
def toLowerStr (s : List Char) : List Char := s.map Char.toLower

def sundayStr : List Char := ['s', 'u', 'n', 'd', 'a', 'y']

def mondayStr : List Char := ['m', 'o', 'n', 'd', 'a', 'y']

def tuesdayStr : List Char := ['t', 'u', 'e', 's', 'd', 'a', 'y']

def wednesdayStr : List Char := ['w', 'e', 'd', 'n', 'e', 's', 'd', 'a', 'y']

def thursdayStr : List Char := ['t', 'h', 'u', 'r', 's', 'd', 'a', 'y']

def fridayStr : List Char := ['f', 'r', 'i', 'd', 'a', 'y']

def saturdayStr : List Char := ['s', 'a', 't', 'u', 'r', 'd', 'a', 'y']

/-- The switch body of `weekStartsOnStringToIndex`, on the already
lowercased name. -/
def dayNameLookup (s : List Char) : Option ℤ :=
  if s = sundayStr then some 0
  else if s = mondayStr then some 1
  else if s = tuesdayStr then some 2
  else if s = wednesdayStr then some 3
  else if s = thursdayStr then some 4
  else if s = fridayStr then some 5
  else if s = saturdayStr then some 6
  else none

/-- `weekStartsOnStringToIndex` from `utils.ts`: case-insensitive switch
over the seven English day names; anything else (including `undefined`)
yields `undefined` (`none`). -/
def weekStartsOnStringToIndex (weekStartsOn : Option (List Char)) : Option ℤ :=
  match weekStartsOn with
  | none => none
  | some w => dayNameLookup (toLowerStr w)

/-- `weekStartsOnIndexToString` from `utils.ts`: switch over the indices
0–6; any other value (including `undefined`) yields `undefined`. -/
def weekStartsOnIndexToString (index : Option ℤ) : Option (List Char) :=
  if index = some 0 then some sundayStr
  else if index = some 1 then some mondayStr
  else if index = some 2 then some tuesdayStr
  else if index = some 3 then some wednesdayStr
  else if index = some 4 then some thursdayStr
  else if index = some 5 then some fridayStr
  else if index = some 6 then some saturdayStr
  else none

/-- `weeklyNoteKeyCorrection` from `utils.ts`.  `tz` is the host
timezone-offset function used when a replacement key is formatted; a thrown
error (malformed embedded date) is modelled as `none`. -/
def weeklyNoteKeyCorrection (tz : ℤ → ℤ) (key : List Char)
    (weekStartsOn : List Char) : Option (List Char) :=
  match createLocalDateYYYYMMDD (List.take 10 (List.drop 5 key)) with
  | none => none
  | some date =>
    match weekStartsOnStringToIndex (some weekStartsOn) with
    | none => some key
    | some startDayIndex =>
      if jsGetDay date = startDayIndex then some key
      else some (dateToWeeklyNoteRecordKeyFormat tz (nextDay date startDayIndex))

/-! ### Lifespan validation (`isValidLifespan` in `src/lib/utils.ts`) -/

/-- JavaScript whitespace (the forms relevant to `Number(...)` trimming). -/
def jsIsWS (c : Char) : Bool :=
  c == ' ' || c == '\t' || c == '\n' || c == '\r'

/-- Trim leading and trailing whitespace. -/
def jsTrim (s : List Char) : List Char :=
  ((s.dropWhile jsIsWS).reverse.dropWhile jsIsWS).reverse

/-- Unsigned decimal numeral (digits with an optional decimal point);
`none` is `NaN`.  Exotic `Number` forms (exponents, hex, `Infinity`)
are outside the vocabulary the validators are exercised with. -/
def jsUnsignedNumber (u : List Char) : Option ℚ :=
  match List.splitOn '.' u with
  | [a] => if a ≠ [] ∧ a.all Char.isDigit then some (parseNat a) else none
  | [a, b] =>
    if (a ≠ [] ∨ b ≠ []) ∧ a.all Char.isDigit ∧ b.all Char.isDigit then
      some ((parseNat a : ℚ) + (parseNat b : ℚ) / 10 ^ b.length)
    else none
  | _ => none

/-- JavaScript `Number(string)`: trims whitespace, maps the empty string
to `0`, handles an optional sign; `none` is `NaN`. -/
def jsStringToNumber (s : List Char) : Option ℚ :=
  let t := jsTrim s
  if t = [] then some 0
  else
    match t with
    | '-' :: r => (jsUnsignedNumber r).map (fun q => -q)
    | '+' :: r => jsUnsignedNumber r
    | _ => jsUnsignedNumber t

/-- `isValidLifespan` from `utils.ts`: `Number(value)` must be a non-`NaN`
integer within `[minLifespan, maxLifespan]`. -/
def isValidLifespan (value : List Char) (minLifespan maxLifespan : ℚ) : Bool :=
  match jsStringToNumber value with
  | none => false
  | some lifespan =>
    decide (lifespan.den = 1) && decide (minLifespan ≤ lifespan) &&
      decide (lifespan ≤ maxLifespan)

/-! ### Calendar generation (`src/lib/generateCalendarData.ts`) -/

/-- A week descriptor: 0-based index plus the week's start date. -/
structure Week where
  index : ℕ
  startDate : ℤ
deriving DecidableEq, Repr

/-- The output record of `generateCalendarData`. -/
structure CalendarData where
  validatedBirthDate : ℤ
  validatedLifespan : ℚ
  validatedWeekStartsOn : Option ℤ
  birthWeek : ℤ
  deathDate : ℤ
  deathWeek : ℤ
  weeks : List Week
  hasWeeks : Bool
deriving DecidableEq, Repr

/-- Fuel-driven worker for the `eachWeekOfInterval` enumeration loop; the
fuel is the exact iteration count, computed up front so the definition
reduces in the kernel. -/
def weekSeqAux : ℕ → ℤ → List ℤ
  | 0, _ => []
  | f + 1, cur => cur :: weekSeqAux f (cur + 7)

/-- The `while (currentDate <= endWeek)` loop of date-fns
`eachWeekOfInterval`, started at `cur`: all dates `cur, cur + 7, …` up to
`endW`.  `weekSeq_eq` below shows this is exactly that loop. -/
def weekSeq (cur endW : ℤ) : List ℤ :=
  if cur ≤ endW then weekSeqAux ((endW - cur).toNat / 7 + 1) cur else []

/-- `weekSeq` satisfies the defining equation of the enumeration loop. -/
theorem weekSeq_eq (cur endW : ℤ) :
    weekSeq cur endW = if cur ≤ endW then cur :: weekSeq (cur + 7) endW else [] := by
  unfold weekSeq
  split_ifs with h1 h2
  · have hn : (endW - cur).toNat / 7 + 1 = ((endW - (cur + 7)).toNat / 7 + 1) + 1 := by
      omega
    rw [hn]
    rfl
  · have hn : (endW - cur).toNat / 7 + 1 = 1 := by omega
    rw [hn]
    rfl
  · rfl

/-- `generateWeekIntervals` from `generateCalendarData.ts`:
`eachWeekOfInterval` over `[startWeek, endWeek]` with the configured week
start (or the library default 0 = Sunday); an invalid interval
(`start > end`) throws inside date-fns and is caught, yielding `[]`. -/
def generateWeekIntervals (startWeek endWeek : ℤ) (ws : Option ℤ) : List ℤ :=
  if startWeek ≤ endWeek then
    weekSeq (startOfWeek startWeek (ws.getD 0)) (startOfWeek endWeek (ws.getD 0))
  else []

/-- Index-tracking worker for `createWeekObjects`. -/
def weekObjectsAux : ℕ → List ℤ → List Week
  | _, [] => []
  | i, z :: t => ⟨i, z⟩ :: weekObjectsAux (i + 1) t

/-- `createWeekObjects` from `generateCalendarData.ts`: wrap each start
date with its 0-based position. -/
def createWeekObjects (weekIntervals : List ℤ) : List Week :=
  weekObjectsAux 0 weekIntervals

/-- `getValidatedBirthDate` from `createCalendarValidation`: a valid
`Date` passes through, an invalid one is replaced (with a logged warning)
by `new Date(2000, 0, 1)`. -/
def getValidatedBirthDate (date : Option ℤ) : ℤ :=
  date.getD (mkJSDate 2000 0 1)

/-- `getValidatedLifespan` from `createCalendarValidation`: values in
`[MIN_LIFESPAN, MAX_LIFESPAN] = [1, 200]` pass through, anything else is
replaced (with a logged warning) by `DEFAULT_LIFESPAN = 76`. -/
def getValidatedLifespan (lifespan : ℚ) : ℚ :=
  if 1 ≤ lifespan ∧ lifespan ≤ 200 then lifespan else 76

/-- `generateCalendarData` from `generateCalendarData.ts`.  The birth date
is `none` for an invalid `Date` object (which passes the programmatic
guards but is replaced by the fallback 2000-01-01); the lifespan is a
non-`NaN` number; `none` models the throws for an empty component name or
for the (unreachable) non-positive validated lifespan in
`calculateCalendarDates`.  Fractional amounts are truncated to whole years
as date-fns arithmetic does. -/
def generateCalendarData (birthDate : Option ℤ) (lifespan : ℚ)
    (componentName : List Char) (weekStartsOn : Option (List Char)) :
    Option CalendarData :=
  if jsTrim componentName = [] then none
  else
    let validatedBirthDate := getValidatedBirthDate birthDate
    let validatedLifespan := getValidatedLifespan lifespan
    let ws := weekStartsOnStringToIndex weekStartsOn
    if validatedLifespan ≤ 0 then none
    else
      let birthWeek := startOfWeek validatedBirthDate (ws.getD 0)
      let deathDate := addYears validatedBirthDate (jsTrunc validatedLifespan)
      let deathWeek := startOfWeek deathDate (ws.getD 0)
      let weeks := createWeekObjects (generateWeekIntervals birthWeek deathWeek ws)
      some ⟨validatedBirthDate, validatedLifespan, ws, birthWeek, deathDate,
        deathWeek, weeks, decide (0 < weeks.length)⟩

/-- The `while (currentStartDate < endDate)` loop of `createYearGroups`,
with explicit fuel; `none` means the loop has not terminated within
`fuel` iterations. -/
def yearGroupsLoop (validatedLifespan : ℚ) (ws : Option ℤ) (endDate : ℤ) :
    ℕ → ℤ → List (List Week) → Option (List (List Week))
  | 0, _, _ => none
  | fuel + 1, currentStartDate, yearGroups =>
    if currentStartDate < endDate then
      let span : ℚ := min (validatedLifespan - (yearGroups.length : ℚ) * 10) 10
      let currentEndDate := addYears currentStartDate (jsTrunc span) - 7
      let intervals := generateWeekIntervals currentStartDate currentEndDate ws
      yearGroupsLoop validatedLifespan ws endDate fuel (currentEndDate + 7)
        (yearGroups ++ [createWeekObjects intervals])
    else some yearGroups

/-- `createYearGroups` from `generateCalendarData.ts` with
`YEAR_GROUP_SIZE = 10`: groups re-enumerated per 10-year span;
`currentEndDate = subWeeks(addYears(currentStartDate, min(remaining, 10)), 1)`
and the next start is `addWeeks(currentEndDate, 1)`.  `none` means the
while-loop ran past `fuel` iterations without terminating. -/
def createYearGroups (validatedLifespan : ℚ) (birthWeek : ℤ) (ws : Option ℤ)
    (fuel : ℕ) : Option (List (List Week)) :=
  let endDate := addYears birthWeek (jsTrunc validatedLifespan)
  if validatedLifespan ≤ 0 then some []
  else yearGroupsLoop validatedLifespan ws endDate fuel birthWeek []

/-! ### Dynamic template expansion (`parseJournalsVariables`,
`parseDynamicDatesInString`, `extractMomentFormatFromPattern`) -/

/-- Strip `pre` from the front of a string, returning the remainder. -/
def dropPrefixOf : List Char → List Char → Option (List Char)
  | [], s => some s
  | _ :: _, [] => none
  | a :: t, b :: u => if a = b then dropPrefixOf t u else none

/-- Match `/{{\s*NAME\s*}}/` at the head of `s`, returning the remainder
after the match. -/
def matchVarAt (name : List Char) (s : List Char) : Option (List Char) :=
  match s with
  | '{' :: '{' :: r1 =>
    match dropPrefixOf name (r1.dropWhile jsIsWS) with
    | some r2 =>
      match r2.dropWhile jsIsWS with
      | '}' :: '}' :: tail => some tail
      | _ => none
    | none => none
  | _ => none

/-- Fuel-driven left-to-right global regex replacement of
`/{{\s*NAME\s*}}/g` by `val` (the fuel exceeds the string length, so it
never runs out). -/
def replaceVarAux (name val : List Char) : ℕ → List Char → List Char
  | 0, s => s
  | _ + 1, [] => []
  | f + 1, c :: t =>
    match matchVarAt name (c :: t) with
    | some rest => val ++ replaceVarAux name val f rest
    | none => c :: replaceVarAux name val f t

/-- `text.replace(/{{\s*NAME\s*}}/g, () => val)`. -/
def replaceVar (name val s : List Char) : List Char :=
  replaceVarAux name val (s.length + 1) s

def startDateName : List Char := ['s', 't', 'a', 'r', 't', '_', 'd', 'a', 't', 'e']

def endDateName : List Char := ['e', 'n', 'd', '_', 'd', 'a', 't', 'e']

def currentDateName : List Char :=
  ['c', 'u', 'r', 'r', 'e', 'n', 't', '_', 'd', 'a', 't', 'e']

/-- `parseJournalsVariables` from the dynamic-path module: sequentially
replaces `{{start_date}}`, `{{end_date}}` and `{{current_date}}`.  The
moment-formatted values (start of the week containing the date, end of
that week, the date itself, each rendered with the default format) enter
as the abstract parameters `startVal`, `endVal`, `curVal`. -/
def parseJournalsVariables (startVal endVal curVal : List Char)
    (text : List Char) : List Char :=
  replaceVar currentDateName curVal
    (replaceVar endDateName endVal (replaceVar startDateName startVal text))

/-- Match `/{{\s*date(?::([^}]+))?\s*}}/` at the head of `s`: returns the
optional captured `FORMAT` and the remainder. -/
def matchDateVarAt (s : List Char) : Option (Option (List Char) × List Char) :=
  match s with
  | '{' :: '{' :: r1 =>
    match dropPrefixOf ['d', 'a', 't', 'e'] (r1.dropWhile jsIsWS) with
    | some r2 =>
      match r2 with
      | ':' :: r3 =>
        let cap := r3.takeWhile (fun c => ¬ c = '}')
        if cap = [] then none
        else
          match r3.drop cap.length with
          | '}' :: '}' :: tail => some (some cap, tail)
          | _ => none
      | _ =>
        match r2.dropWhile jsIsWS with
        | '}' :: '}' :: tail => some (none, tail)
        | _ => none
    | none => none
  | _ => none

/-- Fuel-driven global replacement of `{{date}}` / `{{date:FORMAT}}`;
`fmtFn f` is the moment-formatted date for captured format `f` (`none`
meaning the caller's default format), `.trim()` included. -/
def replaceDateVarAux (fmtFn : Option (List Char) → List Char) :
    ℕ → List Char → List Char
  | 0, s => s
  | _ + 1, [] => []
  | f + 1, c :: t =>
    match matchDateVarAt (c :: t) with
    | some (cap, rest) => fmtFn cap ++ replaceDateVarAux fmtFn f rest
    | none => c :: replaceDateVarAux fmtFn f t

/-- `parseDynamicDatesInString` from the dynamic-path module. -/
def parseDynamicDatesInString (fmtFn : Option (List Char) → List Char)
    (dynamicString : List Char) : List Char :=
  replaceDateVarAux fmtFn (dynamicString.length + 1) dynamicString

/-- `isStringDynamic`: contains both `{{` and `}}`. -/
def hasSubstring (pat : List Char) : List Char → Bool
  | [] => pat.isEmpty
  | c :: t => (dropPrefixOf pat (c :: t)).isSome || hasSubstring pat t

def isStringDynamic (stringSegment : List Char) : Bool :=
  hasSubstring ['{', '{'] stringSegment && hasSubstring ['}', '}'] stringSegment

/-- `parseDynamicFolderPath`: date segments first, then Journals
variables. -/
def parseDynamicFolderPath (fmtFn : Option (List Char) → List Char)
    (startVal endVal curVal : List Char) (folderPath : List Char) : List Char :=
  if isStringDynamic folderPath then
    parseJournalsVariables startVal endVal curVal
      (parseDynamicDatesInString fmtFn folderPath)
  else folderPath

/-- Match `/\{\{date:([^}]+)\}\}/` at the head of `s` (the stricter
pattern used by `extractMomentFormatFromPattern`: no whitespace, colon
mandatory). -/
def matchStrictDateAt (s : List Char) : Option (List Char × List Char) :=
  match s with
  | '{' :: '{' :: 'd' :: 'a' :: 't' :: 'e' :: ':' :: r1 =>
    let cap := r1.takeWhile (fun c => ¬ c = '}')
    if cap = [] then none
    else
      match r1.drop cap.length with
      | '}' :: '}' :: tail => some (cap, tail)
      | _ => none
  | _ => none

/-- First match of `/\{\{date:([^}]+)\}\}/` in `s`:
`(text before, captured format, text after)`. -/
def findDateSegment : List Char → Option (List Char × List Char × List Char)
  | [] => none
  | c :: t =>
    match matchStrictDateAt (c :: t) with
    | some (cap, tail) => some ([], cap, tail)
    | none =>
      match findDateSegment t with
      | some (before, cap, tail) => some (c :: before, cap, tail)
      | none => none

/-- `extractMomentFormatFromPattern` from the dynamic-path module: keep
the `FORMAT` of the single `{{date:FORMAT}}` segment and wrap the literal
text around it in brackets; with no dynamic segment the whole pattern is
bracket-wrapped. -/
def extractMomentFormatFromPattern (fileNamePattern : List Char) : List Char :=
  match findDateSegment fileNamePattern with
  | some (beforeSegment, fmt, afterSegment) =>
    (if beforeSegment = [] then [] else '[' :: beforeSegment ++ [']']) ++ fmt ++
      (if afterSegment = [] then [] else '[' :: afterSegment ++ [']'])
  | none => '[' :: fileNamePattern ++ [']']

theorem weekStartsOnStringToIndex_range (w : Option (List Char)) (i : ℤ)
    (h : weekStartsOnStringToIndex w = some i) : 0 ≤ i ∧ i ≤ 6 := by
  cases w with
  | none => simp [weekStartsOnStringToIndex] at h
  | some s =>
    simp only [weekStartsOnStringToIndex, dayNameLookup] at h
    split_ifs at h <;> simp_all <;> omega

theorem weekStartsOn_getD_range (w : Option (List Char)) :
    0 ≤ (weekStartsOnStringToIndex w).getD 0 ∧
      (weekStartsOnStringToIndex w).getD 0 ≤ 6 := by
  cases hws : weekStartsOnStringToIndex w with
  | none => simp
  | some i =>
    have := weekStartsOnStringToIndex_range w i hws
    simpa using this

/-! ### Claim theorems -/

/-- A host timezone-offset function for concrete instantiations (UTC). -/
def tzZero : ℤ → ℤ := fun _ => 0

/-- C9: with bounds `[1, 200]`, the lifespan string validator rejects
`"0"`, `"201"`, `"abc"` and `""`, and accepts `"1"` and `"200"`
(inclusive boundaries). -/
theorem C9_lifespan_validator :
    isValidLifespan ['0'] 1 200 = false ∧
      isValidLifespan ['2', '0', '1'] 1 200 = false ∧
      isValidLifespan ['a', 'b', 'c'] 1 200 = false ∧
      isValidLifespan [] 1 200 = false ∧
      isValidLifespan ['1'] 1 200 = true ∧
      isValidLifespan ['2', '0', '0'] 1 200 = true := by
  decide

/-- C6: for every string whose lowercasing is one of the seven English day
names, converting the name to its index and back yields the lowercased
name; an unrecognized name (`"bogus"`) maps to `undefined`, and
`undefined` maps back to `undefined`.  Both conversions are total
functions of the model, so no input raises an error. -/
theorem C6_day_name_round_trip :
    (∀ d : List Char,
      toLowerStr d = sundayStr ∨ toLowerStr d = mondayStr ∨
        toLowerStr d = tuesdayStr ∨ toLowerStr d = wednesdayStr ∨
        toLowerStr d = thursdayStr ∨ toLowerStr d = fridayStr ∨
        toLowerStr d = saturdayStr →
      weekStartsOnIndexToString (weekStartsOnStringToIndex (some d)) =
        some (toLowerStr d)) ∧
    weekStartsOnStringToIndex (some ['b', 'o', 'g', 'u', 's']) = none ∧
    weekStartsOnIndexToString none = none := by
  refine ⟨?_, by decide, by decide⟩
  intro d hd
  have key : weekStartsOnIndexToString (weekStartsOnStringToIndex (some d)) =
      weekStartsOnIndexToString (dayNameLookup (toLowerStr d)) := rfl
  rw [key]
  rcases hd with h | h | h | h | h | h | h <;> rw [h] <;> decide

/-- Witness for C6 at the concrete input `"Monday"`. -/
theorem C6_day_name_round_trip_witness :
    (toLowerStr ['M', 'o', 'n', 'd', 'a', 'y'] = sundayStr ∨
      toLowerStr ['M', 'o', 'n', 'd', 'a', 'y'] = mondayStr ∨
      toLowerStr ['M', 'o', 'n', 'd', 'a', 'y'] = tuesdayStr ∨
      toLowerStr ['M', 'o', 'n', 'd', 'a', 'y'] = wednesdayStr ∨
      toLowerStr ['M', 'o', 'n', 'd', 'a', 'y'] = thursdayStr ∨
      toLowerStr ['M', 'o', 'n', 'd', 'a', 'y'] = fridayStr ∨
      toLowerStr ['M', 'o', 'n', 'd', 'a', 'y'] = saturdayStr) ∧
    weekStartsOnIndexToString
        (weekStartsOnStringToIndex (some ['M', 'o', 'n', 'd', 'a', 'y'])) =
      some (toLowerStr ['M', 'o', 'n', 'd', 'a', 'y']) :=
  ⟨by decide, C6_day_name_round_trip.1 ['M', 'o', 'n', 'd', 'a', 'y'] (by decide)⟩

/-- The test template `"Week {{index}}"`. -/
def weekIndexTemplate : List Char :=
  ['W', 'e', 'e', 'k', ' ', '{', '{', 'i', 'n', 'd', 'e', 'x', '}', '}']

/-- C7 (failing part): `parseJournalsVariables` (and the whole
`parseDynamicFolderPath` pipeline) leaves `{{index}}` untouched for every
date and formatter, although the repository's own test
(`utils.test.ts`: "should replace {{index}} with week number") and README
document `{{index}}` as a supported placeholder. -/
theorem C7_index_placeholder_unreplaced (startVal endVal curVal : List Char)
    (fmtFn : Option (List Char) → List Char) :
    parseJournalsVariables startVal endVal curVal weekIndexTemplate =
        weekIndexTemplate ∧
      parseDynamicFolderPath fmtFn startVal endVal curVal weekIndexTemplate =
        weekIndexTemplate :=
  ⟨rfl, rfl⟩

/-- C8: `extractMomentFormatFromPattern` on
`"Weekly-{{date:GGGG-[W]WW}}"` yields `"[Weekly-]GGGG-[W]WW"`, and on the
segment-free `"YYYY-WW"` yields the wholesale literal `"[YYYY-WW]"`. -/
theorem C8_extract_moment_format :
    extractMomentFormatFromPattern
        ['W', 'e', 'e', 'k', 'l', 'y', '-', '{', '{', 'd', 'a', 't', 'e', ':',
          'G', 'G', 'G', 'G', '-', '[', 'W', ']', 'W', 'W', '}', '}'] =
      ['[', 'W', 'e', 'e', 'k', 'l', 'y', '-', ']',
        'G', 'G', 'G', 'G', '-', '[', 'W', ']', 'W', 'W'] ∧
    extractMomentFormatFromPattern ['Y', 'Y', 'Y', 'Y', '-', 'W', 'W'] =
      ['[', 'Y', 'Y', 'Y', 'Y', '-', 'W', 'W', ']'] := by
  decide

theorem daysFromCivil_lt_of_year_lt (y₁ m₁ d₁ y₂ m₂ d₂ : ℤ)
    (hm₁ : 1 ≤ m₁) (hm₁' : m₁ ≤ 12) (hd₁ : 1 ≤ d₁)
    (hm₂ : 1 ≤ m₂) (hm₂' : m₂ ≤ 12) (hd₂ : 1 ≤ d₂) (hd₂' : d₂ ≤ 31)
    (h : y₂ < y₁) : daysFromCivil y₂ m₂ d₂ < daysFromCivil y₁ m₁ d₁ := by
  unfold daysFromCivil monthStart dBY
  split_ifs <;> omega

theorem yearOf_mono (z₁ z₂ : ℤ) (h : z₁ ≤ z₂) : yearOf z₁ ≤ yearOf z₂ := by
  by_contra hc
  push_neg at hc
  obtain ⟨hm1, hm2⟩ := monthOf_bounds z₁
  obtain ⟨hd1, hd2⟩ := dayOf_bounds z₁
  obtain ⟨hm1', hm2'⟩ := monthOf_bounds z₂
  obtain ⟨hd1', hd2'⟩ := dayOf_bounds z₂
  have hlt := daysFromCivil_lt_of_year_lt (yearOf z₁) (monthOf z₁) (dayOf z₁)
    (yearOf z₂) (monthOf z₂) (dayOf z₂) hm1 hm2 hd1 hm1' hm2' hd1' hd2' hc
  rw [civil_inv, civil_inv] at hlt
  omega

/-- C1 (amended to four-digit years): for every valid date `z` whose local
year lies in 1000–9999 and every host timezone-offset function, formatting
`z` with `dateToWeeklyNoteRecordKeyFormat` and parsing the 10-character
substring at offset 5 with `createLocalDateYYYYMMDD` recovers `z` — in
particular a date with the same local year, month and day. -/
theorem C1_key_round_trip (tz : ℤ → ℤ) (z : ℤ)
    (hy1 : 1000 ≤ yearOf z) (hy2 : yearOf z ≤ 9999) :
    createLocalDateYYYYMMDD
        (List.take 10 (List.drop 5 (dateToWeeklyNoteRecordKeyFormat tz z))) =
      some z ∧
    ∃ e, createLocalDateYYYYMMDD
        (List.take 10 (List.drop 5 (dateToWeeklyNoteRecordKeyFormat tz z))) =
          some e ∧
      yearOf e = yearOf z ∧ monthOf e = monthOf z ∧ dayOf e = dayOf z := by
  have h := createLocal_key_roundtrip tz z hy1 hy2
  exact ⟨h, z, h, rfl, rfl, rfl⟩

/-- Witness for C1 at 2024-03-15 (day number 19797) under a UTC host. -/
theorem C1_key_round_trip_witness :
    (1000 ≤ yearOf 19797 ∧ yearOf 19797 ≤ 9999) ∧
    (createLocalDateYYYYMMDD
        (List.take 10 (List.drop 5 (dateToWeeklyNoteRecordKeyFormat tzZero 19797))) =
      some 19797 ∧
    ∃ e, createLocalDateYYYYMMDD
        (List.take 10 (List.drop 5 (dateToWeeklyNoteRecordKeyFormat tzZero 19797))) =
          some e ∧
      yearOf e = yearOf 19797 ∧ monthOf e = monthOf 19797 ∧ dayOf e = dayOf 19797) :=
  ⟨⟨by decide, by decide⟩, C1_key_round_trip tzZero 19797 (by decide) (by decide)⟩

/-- Counterexample to C1 as stated: for the valid date 0999-01-01 the
unpadded three-digit year makes the embedded substring `"999-01-01T"`,
which fails the `YYYY-MM-DD` check, so re-parsing throws (`none`) instead
of recovering the date. -/
theorem C1_key_round_trip_counterexample :
    createLocalDateYYYYMMDD
        (List.take 10 (List.drop 5
          (dateToWeeklyNoteRecordKeyFormat tzZero (daysFromCivil 999 1 1)))) = none := by
  decide

/-- C2 (amended at the year-9999 boundary): for a canonical key formatted
from a date `z` with a four-digit year and any week-start string `ws`:
an unrecognized `ws` returns the key unchanged; a `ws` whose index equals
the embedded date's weekday returns the key unchanged; otherwise —
provided the next occurrence of the start day still has a four-digit
year — the returned key's embedded date is exactly the next occurrence of
the configured week-start day strictly after the embedded date (within
the following seven days). -/
theorem C2_key_correction (tz tz2 : ℤ → ℤ) (z : ℤ) (ws : List Char)
    (hy1 : 1000 ≤ yearOf z) (hy2 : yearOf z ≤ 9999) :
    (weekStartsOnStringToIndex (some ws) = none →
      weeklyNoteKeyCorrection tz2 (dateToWeeklyNoteRecordKeyFormat tz z) ws =
        some (dateToWeeklyNoteRecordKeyFormat tz z)) ∧
    (∀ idx, weekStartsOnStringToIndex (some ws) = some idx → jsGetDay z = idx →
      weeklyNoteKeyCorrection tz2 (dateToWeeklyNoteRecordKeyFormat tz z) ws =
        some (dateToWeeklyNoteRecordKeyFormat tz z)) ∧
    (∀ idx, weekStartsOnStringToIndex (some ws) = some idx → jsGetDay z ≠ idx →
      yearOf (nextDay z idx) ≤ 9999 →
      ∃ k2 e,
        weeklyNoteKeyCorrection tz2 (dateToWeeklyNoteRecordKeyFormat tz z) ws =
          some k2 ∧
        createLocalDateYYYYMMDD (List.take 10 (List.drop 5 k2)) = some e ∧
        jsGetDay e = idx ∧ z < e ∧ e ≤ z + 7) := by
  have hp := createLocal_key_roundtrip tz z hy1 hy2
  refine ⟨?_, ?_, ?_⟩
  · intro hws
    simp only [weeklyNoteKeyCorrection, hp, hws]
  · intro idx hws heq
    simp only [weeklyNoteKeyCorrection, hp, hws, if_pos heq]
  · intro idx hws hne hnext
    obtain ⟨hr0, hr1⟩ := weekStartsOnStringToIndex_range (some ws) idx hws
    obtain ⟨hgd, hlt, hle⟩ := getDay_nextDay z idx hr0 hr1
    have hy1' : 1000 ≤ yearOf (nextDay z idx) :=
      le_trans hy1 (yearOf_mono z _ (le_of_lt hlt))
    refine ⟨dateToWeeklyNoteRecordKeyFormat tz2 (nextDay z idx), nextDay z idx,
      ?_, ?_, hgd, hlt, hle⟩
    · simp only [weeklyNoteKeyCorrection, hp, hws, if_neg hne]
    · exact createLocal_key_roundtrip tz2 (nextDay z idx) hy1' hnext

/-- Witness for C2 at the key of Friday 2024-03-15 with week start
`"monday"` (the key is corrected to Monday 2024-03-18, day 19800). -/
theorem C2_key_correction_witness :
    (1000 ≤ yearOf 19797 ∧ yearOf 19797 ≤ 9999 ∧
      weekStartsOnStringToIndex (some mondayStr) = some 1 ∧
      jsGetDay 19797 ≠ 1 ∧ yearOf (nextDay 19797 1) ≤ 9999) ∧
    (∃ k2 e,
      weeklyNoteKeyCorrection tzZero (dateToWeeklyNoteRecordKeyFormat tzZero 19797)
          mondayStr = some k2 ∧
      createLocalDateYYYYMMDD (List.take 10 (List.drop 5 k2)) = some e ∧
      jsGetDay e = 1 ∧ (19797 : ℤ) < e ∧ e ≤ 19797 + 7) :=
  ⟨⟨by decide, by decide, by decide, by decide, by decide⟩,
    (C2_key_correction tzZero tzZero 19797 mondayStr (by decide) (by decide)).2.2 1
      (by decide) (by decide) (by decide)⟩

/-- Counterexample to C2 as stated: the key of Friday 9999-12-31 (day
2932896) with week start `"saturday"` hits the otherwise-branch, but the
corrected date 10000-01-01 has a five-digit year, so the returned key has
no parseable embedded date at all (instead of the next Saturday). -/
theorem C2_key_correction_counterexample :
    yearOf 2932896 = 9999 ∧ jsGetDay 2932896 = 5 ∧
    weekStartsOnStringToIndex (some saturdayStr) = some 6 ∧
    (weeklyNoteKeyCorrection tzZero
        (dateToWeeklyNoteRecordKeyFormat tzZero 2932896) saturdayStr).isSome = true ∧
    ((weeklyNoteKeyCorrection tzZero
        (dateToWeeklyNoteRecordKeyFormat tzZero 2932896) saturdayStr).bind
      (fun k2 => createLocalDateYYYYMMDD (List.take 10 (List.drop 5 k2)))) = none := by
  decide

/-- C10 (amended at the year-9999 boundary): key correction is idempotent
on canonical keys with four-digit embedded years and a recognized
week-start day, provided the corrected date also keeps a four-digit year:
the corrected key's embedded date falls on the configured start day, so a
second correction returns it unchanged. -/
theorem C10_correction_idempotent (tz tz2 : ℤ → ℤ) (z : ℤ) (ws : List Char)
    (idx : ℤ) (k2 : List Char)
    (hy1 : 1000 ≤ yearOf z) (hy2 : yearOf z ≤ 9999)
    (hws : weekStartsOnStringToIndex (some ws) = some idx)
    (hnext : yearOf (nextDay z idx) ≤ 9999)
    (h : weeklyNoteKeyCorrection tz2 (dateToWeeklyNoteRecordKeyFormat tz z) ws =
      some k2) :
    weeklyNoteKeyCorrection tz2 k2 ws = some k2 := by
  have hp := createLocal_key_roundtrip tz z hy1 hy2
  obtain ⟨hr0, hr1⟩ := weekStartsOnStringToIndex_range (some ws) idx hws
  simp only [weeklyNoteKeyCorrection, hp, hws] at h
  by_cases heq : jsGetDay z = idx
  · rw [if_pos heq] at h
    have hk2 : k2 = dateToWeeklyNoteRecordKeyFormat tz z := (Option.some.inj h).symm
    rw [hk2]
    simp only [weeklyNoteKeyCorrection, hp, hws, if_pos heq]
  · rw [if_neg heq] at h
    have hk2 : k2 = dateToWeeklyNoteRecordKeyFormat tz2 (nextDay z idx) :=
      (Option.some.inj h).symm
    obtain ⟨hgd, hlt, hle⟩ := getDay_nextDay z idx hr0 hr1
    have hy1' : 1000 ≤ yearOf (nextDay z idx) :=
      le_trans hy1 (yearOf_mono z _ (le_of_lt hlt))
    have hp2 := createLocal_key_roundtrip tz2 (nextDay z idx) hy1' hnext
    rw [hk2]
    simp only [weeklyNoteKeyCorrection, hp2, hws, if_pos hgd]

/-- Witness for C10 on the key of 2024-03-15 with week start `"monday"`. -/
theorem C10_correction_idempotent_witness :
    (1000 ≤ yearOf 19797 ∧ yearOf 19797 ≤ 9999 ∧
      weekStartsOnStringToIndex (some mondayStr) = some 1 ∧
      yearOf (nextDay 19797 1) ≤ 9999 ∧
      weeklyNoteKeyCorrection tzZero (dateToWeeklyNoteRecordKeyFormat tzZero 19797)
          mondayStr = some (dateToWeeklyNoteRecordKeyFormat tzZero 19800)) ∧
    weeklyNoteKeyCorrection tzZero (dateToWeeklyNoteRecordKeyFormat tzZero 19800)
        mondayStr = some (dateToWeeklyNoteRecordKeyFormat tzZero 19800) :=
  ⟨⟨by decide, by decide, by decide, by decide, by decide⟩,
    C10_correction_idempotent tzZero tzZero 19797 mondayStr 1
      (dateToWeeklyNoteRecordKeyFormat tzZero 19800)
      (by decide) (by decide) (by decide) (by decide) (by decide)⟩

/-- Counterexample to C10 as stated: for the key of Friday 9999-12-31 with
week start `"saturday"`, the first correction succeeds but produces a key
with a five-digit embedded year, and the second application throws
(`none`), so correcting twice differs from correcting once. -/
theorem C10_correction_idempotent_counterexample :
    (weeklyNoteKeyCorrection tzZero
        (dateToWeeklyNoteRecordKeyFormat tzZero 2932896) saturdayStr).isSome = true ∧
    ((weeklyNoteKeyCorrection tzZero
        (dateToWeeklyNoteRecordKeyFormat tzZero 2932896) saturdayStr).bind
      (fun k => weeklyNoteKeyCorrection tzZero k saturdayStr)) = none := by
  decide


theorem getValidatedLifespan_ge_one (L : ℚ) : 1 ≤ getValidatedLifespan L := by
  unfold getValidatedLifespan
  split_ifs with h
  · exact h.1
  · norm_num

theorem jsTrunc_ge_one (q : ℚ) (h : 1 ≤ q) : 1 ≤ jsTrunc q := by
  unfold jsTrunc
  rw [if_neg (by linarith)]
  exact Int.le_floor.mpr (by exact_mod_cast h)

theorem jsTrunc_nonpos (q : ℚ) (h : q ≤ 0) : jsTrunc q ≤ 0 := by
  unfold jsTrunc
  split_ifs with h'
  · exact Int.ceil_le.mpr (by exact_mod_cast h)
  · calc ⌊q⌋ ≤ ⌊(0 : ℚ)⌋ := Int.floor_le_floor h
      _ = 0 := by norm_num

theorem weekSeqAux_closed (f : ℕ) : ∀ cur : ℤ,
    weekSeqAux f cur = (List.range f).map (fun (i : ℕ) => cur + 7 * (i : ℤ)) := by
  induction f with
  | zero => intro cur; rfl
  | succ g ih =>
    intro cur
    have h0 : weekSeqAux (g + 1) cur = cur :: weekSeqAux g (cur + 7) := rfl
    rw [h0, ih, List.range_succ_eq_map]
    simp only [List.map_cons, List.map_map, Nat.cast_zero, mul_zero, add_zero]
    refine congrArg _ (List.map_congr_left ?_)
    intro i _
    simp only [Function.comp_apply, Nat.cast_succ]
    ring

theorem weekObjectsAux_range (n : ℕ) : ∀ (j : ℕ) (g : ℕ → ℤ),
    weekObjectsAux j ((List.range n).map g) =
      (List.range n).map (fun (i : ℕ) => ⟨j + i, g i⟩) := by
  induction n with
  | zero => intro j g; rfl
  | succ m ih =>
    intro j g
    rw [List.range_succ_eq_map]
    simp only [List.map_cons, List.map_map]
    have h0 : weekObjectsAux j (g 0 :: ((List.range m).map (g ∘ Nat.succ))) =
        ⟨j, g 0⟩ :: weekObjectsAux (j + 1) ((List.range m).map (g ∘ Nat.succ)) := rfl
    rw [h0, ih (j + 1) (g ∘ Nat.succ)]
    refine congrArg₂ _ (by simp) (List.map_congr_left ?_)
    intro i _
    have hji : j + 1 + i = j + i.succ := by omega
    simp only [Function.comp_apply, hji]

theorem createWeekObjects_range (n : ℕ) (s : ℤ) :
    createWeekObjects ((List.range n).map (fun (i : ℕ) => s + 7 * (i : ℤ))) =
      (List.range n).map (fun (i : ℕ) => ⟨i, s + 7 * (i : ℤ)⟩) := by
  unfold createWeekObjects
  rw [weekObjectsAux_range n 0 (fun (i : ℕ) => s + 7 * (i : ℤ))]
  exact List.map_congr_left (fun i _ => by simp)

/-- The enumerated weeks of one generated span, in closed form: a
non-empty arithmetic progression of week starts (one calendar week apart)
with sequential indices, starting at the birth week. -/
theorem weeks_closed (b : ℤ) (wsv : Option ℤ) (k : ℤ) (hk : 1 ≤ k)
    (he0 : 0 ≤ wsv.getD 0) (he6 : wsv.getD 0 ≤ 6) :
    ∃ n : ℕ, 0 < n ∧
      createWeekObjects (generateWeekIntervals (startOfWeek b (wsv.getD 0))
          (startOfWeek (addYears b k) (wsv.getD 0)) wsv) =
        (List.range n).map
          (fun (i : ℕ) => ⟨i, startOfWeek b (wsv.getD 0) + 7 * (i : ℤ)⟩) := by
  have hbd : b < addYears b k := addYears_gt b k hk
  have hle : startOfWeek b (wsv.getD 0) ≤ startOfWeek (addYears b k) (wsv.getD 0) :=
    startOfWeek_mono b (addYears b k) (wsv.getD 0) he0 he6 (le_of_lt hbd)
  have hsw1 : startOfWeek (startOfWeek b (wsv.getD 0)) (wsv.getD 0) =
      startOfWeek b (wsv.getD 0) :=
    startOfWeek_fixed _ _ (getDay_startOfWeek b (wsv.getD 0) he0 he6)
  have hsw2 : startOfWeek (startOfWeek (addYears b k) (wsv.getD 0)) (wsv.getD 0) =
      startOfWeek (addYears b k) (wsv.getD 0) :=
    startOfWeek_fixed _ _ (getDay_startOfWeek (addYears b k) (wsv.getD 0) he0 he6)
  refine ⟨(startOfWeek (addYears b k) (wsv.getD 0) -
      startOfWeek b (wsv.getD 0)).toNat / 7 + 1, by omega, ?_⟩
  unfold generateWeekIntervals
  rw [if_pos hle, hsw1, hsw2]
  unfold weekSeq
  rw [if_pos hle, weekSeqAux_closed]
  exact createWeekObjects_range _ _

/-- Unfolding equation for `generateCalendarData` when the component name
is nonempty: settings validation never throws, and the result record is
built from the validated inputs. -/
theorem generateCalendarData_some (b : Option ℤ) (L : ℚ) (name : List Char)
    (wsStr : Option (List Char)) (hname : jsTrim name ≠ []) :
    generateCalendarData b L name wsStr = some
      ⟨getValidatedBirthDate b, getValidatedLifespan L,
        weekStartsOnStringToIndex wsStr,
        startOfWeek (getValidatedBirthDate b)
          ((weekStartsOnStringToIndex wsStr).getD 0),
        addYears (getValidatedBirthDate b) (jsTrunc (getValidatedLifespan L)),
        startOfWeek (addYears (getValidatedBirthDate b)
            (jsTrunc (getValidatedLifespan L)))
          ((weekStartsOnStringToIndex wsStr).getD 0),
        createWeekObjects (generateWeekIntervals
          (startOfWeek (getValidatedBirthDate b)
            ((weekStartsOnStringToIndex wsStr).getD 0))
          (startOfWeek (addYears (getValidatedBirthDate b)
              (jsTrunc (getValidatedLifespan L)))
            ((weekStartsOnStringToIndex wsStr).getD 0))
          (weekStartsOnStringToIndex wsStr)),
        decide (0 < (createWeekObjects (generateWeekIntervals
          (startOfWeek (getValidatedBirthDate b)
            ((weekStartsOnStringToIndex wsStr).getD 0))
          (startOfWeek (addYears (getValidatedBirthDate b)
              (jsTrunc (getValidatedLifespan L)))
            ((weekStartsOnStringToIndex wsStr).getD 0))
          (weekStartsOnStringToIndex wsStr))).length)⟩ := by
  have hpos : ¬ (getValidatedLifespan L ≤ 0) := by
    have := getValidatedLifespan_ge_one L
    linarith
  simp only [generateCalendarData]
  rw [if_neg hname, if_neg hpos]

/-- C3: for every valid birth date, numeric lifespan at least 1, nonempty
component name and any week-start string, `generateCalendarData` yields a
week sequence that is a nonempty arithmetic progression with step one
calendar week (7 days), sequential 0-based indices, and first start date
equal to the computed birth week. -/
theorem C3_week_sequence (b : ℤ) (L : ℚ) (name : List Char)
    (wsStr : Option (List Char)) (hname : jsTrim name ≠ []) (hL : 1 ≤ L) :
    ∃ cd, generateCalendarData (some b) L name wsStr = some cd ∧
      cd.birthWeek = startOfWeek b ((weekStartsOnStringToIndex wsStr).getD 0) ∧
      cd.weeks.head? = some ⟨0, cd.birthWeek⟩ ∧
      ∃ n : ℕ, 0 < n ∧
        cd.weeks = (List.range n).map
          (fun (i : ℕ) => ⟨i, cd.birthWeek + 7 * (i : ℤ)⟩) := by
  obtain ⟨n, hn, hw⟩ := weeks_closed (getValidatedBirthDate (some b))
    (weekStartsOnStringToIndex wsStr) (jsTrunc (getValidatedLifespan L))
    (jsTrunc_ge_one _ (getValidatedLifespan_ge_one L))
    (weekStartsOn_getD_range wsStr).1 (weekStartsOn_getD_range wsStr).2
  refine ⟨_, generateCalendarData_some (some b) L name wsStr hname, rfl, ?_, n, hn, ?_⟩
  · show (createWeekObjects (generateWeekIntervals
        (startOfWeek (getValidatedBirthDate (some b))
          ((weekStartsOnStringToIndex wsStr).getD 0))
        (startOfWeek (addYears (getValidatedBirthDate (some b))
            (jsTrunc (getValidatedLifespan L)))
          ((weekStartsOnStringToIndex wsStr).getD 0))
        (weekStartsOnStringToIndex wsStr))).head? =
      some ⟨0, startOfWeek (getValidatedBirthDate (some b))
        ((weekStartsOnStringToIndex wsStr).getD 0)⟩
    rw [hw]
    cases n with
    | zero => omega
    | succ m =>
      rw [List.range_succ_eq_map]
      simp
  · show createWeekObjects (generateWeekIntervals
        (startOfWeek (getValidatedBirthDate (some b))
          ((weekStartsOnStringToIndex wsStr).getD 0))
        (startOfWeek (addYears (getValidatedBirthDate (some b))
            (jsTrunc (getValidatedLifespan L)))
          ((weekStartsOnStringToIndex wsStr).getD 0))
        (weekStartsOnStringToIndex wsStr)) =
      (List.range n).map (fun (i : ℕ) =>
        ⟨i, startOfWeek (getValidatedBirthDate (some b))
          ((weekStartsOnStringToIndex wsStr).getD 0) + 7 * (i : ℤ)⟩)
    exact hw

/-- Witness for C3 at birth date 1970-01-01 (day 0), lifespan 1, no
week-start override. -/
theorem C3_week_sequence_witness :
    jsTrim ['x'] ≠ [] ∧ (1 : ℚ) ≤ 1 ∧
    (∃ cd, generateCalendarData (some 0) 1 ['x'] none = some cd ∧
      cd.birthWeek = startOfWeek 0 ((weekStartsOnStringToIndex none).getD 0) ∧
      cd.weeks.head? = some ⟨0, cd.birthWeek⟩ ∧
      ∃ n : ℕ, 0 < n ∧
        cd.weeks = (List.range n).map
          (fun (i : ℕ) => ⟨i, cd.birthWeek + 7 * (i : ℤ)⟩)) :=
  ⟨by decide, by norm_num,
    C3_week_sequence 0 1 ['x'] none (by decide) (by norm_num)⟩

/-- C5: for every `Date`-object birth date (`none` = invalid `Date`),
every non-`NaN` numeric lifespan and a nonempty component name,
`generateCalendarData` produces a `CalendarData` result without throwing
from settings validation: an out-of-range lifespan is replaced by the
default 76, and an invalid birth date by the local date 2000-01-01. -/
theorem C5_validation_fallbacks (b : Option ℤ) (L : ℚ) (name : List Char)
    (wsStr : Option (List Char)) (hname : jsTrim name ≠ []) :
    ∃ cd, generateCalendarData b L name wsStr = some cd ∧
      cd.validatedLifespan = (if 1 ≤ L ∧ L ≤ 200 then L else 76) ∧
      cd.validatedBirthDate = b.getD (mkJSDate 2000 0 1) ∧
      (b = none → yearOf cd.validatedBirthDate = 2000 ∧
        monthOf cd.validatedBirthDate = 1 ∧ dayOf cd.validatedBirthDate = 1) := by
  refine ⟨_, generateCalendarData_some b L name wsStr hname, rfl, rfl, ?_⟩
  intro hb
  subst hb
  refine ⟨?_, ?_, ?_⟩
  · show yearOf (getValidatedBirthDate none) = 2000
    decide
  · show monthOf (getValidatedBirthDate none) = 1
    decide
  · show dayOf (getValidatedBirthDate none) = 1
    decide

/-- Witness for C5 with an invalid birth date and the out-of-range
lifespan 500. -/
theorem C5_validation_fallbacks_witness :
    jsTrim ['x'] ≠ [] ∧
    (∃ cd, generateCalendarData none 500 ['x'] none = some cd ∧
      cd.validatedLifespan =
        (if (1 : ℚ) ≤ 500 ∧ (500 : ℚ) ≤ 200 then (500 : ℚ) else 76) ∧
      cd.validatedBirthDate = (none : Option ℤ).getD (mkJSDate 2000 0 1) ∧
      ((none : Option ℤ) = none → yearOf cd.validatedBirthDate = 2000 ∧
        monthOf cd.validatedBirthDate = 1 ∧ dayOf cd.validatedBirthDate = 1)) :=
  ⟨by decide, C5_validation_fallbacks none 500 ['x'] none (by decide)⟩

/-- On the 2004-02-29 birth week with lifespan 20, the grouping loop never
leaves the region below its end date: `addYears` clamps Feb 29 to Feb 28,
so `currentStartDate` can never reach `endDate = 2024-02-29` and the
`while` loop runs forever. -/
theorem yearGroupsLoop_stuck : ∀ (fuel : ℕ) (cur : ℤ) (acc : List (List Week)),
    (acc.length = 0 ∧ cur = 12477) ∨ (acc.length = 1 ∧ cur = 16129) ∨
      (2 ≤ acc.length ∧ cur ≤ 19781) →
    yearGroupsLoop 20 (some 0) 19782 fuel cur acc = none := by
  intro fuel
  induction fuel with
  | zero => intro cur acc _; rfl
  | succ f ih =>
    intro cur acc hP
    have hcur : cur < 19782 := by
      rcases hP with ⟨_, h⟩ | ⟨_, h⟩ | ⟨_, h⟩ <;> omega
    have hstep : yearGroupsLoop 20 (some 0) 19782 (f + 1) cur acc =
        if cur < 19782 then
          yearGroupsLoop 20 (some 0) 19782 f
            (addYears cur (jsTrunc (min (20 - (acc.length : ℚ) * 10) 10)) - 7 + 7)
            (acc ++ [createWeekObjects (generateWeekIntervals cur
              (addYears cur (jsTrunc (min (20 - (acc.length : ℚ) * 10) 10)) - 7)
              (some 0))])
        else some acc := rfl
    rw [hstep, if_pos hcur]
    apply ih
    rcases hP with ⟨hl, hc⟩ | ⟨hl, hc⟩ | ⟨hl, hc⟩
    · subst hc
      obtain rfl : acc = [] := List.length_eq_zero.mp hl
      right; left
      refine ⟨by simp, ?_⟩
      have hq : ((20 : ℚ) - (([] : List (List Week)).length : ℚ) * 10) ⊓ 10 = 10 := by
        rw [min_def]
        norm_num
      rw [hq]
      have hj : jsTrunc 10 = 10 := by decide
      rw [hj]
      decide
    · subst hc
      obtain ⟨g, rfl⟩ : ∃ g, acc = [g] := List.length_eq_one.mp hl
      right; right
      refine ⟨by simp, ?_⟩
      have hq : ((20 : ℚ) - (([g] : List (List Week)).length : ℚ) * 10) ⊓ 10 = 10 := by
        rw [min_def]
        norm_num
      rw [hq]
      have hj : jsTrunc 10 = 10 := by decide
      rw [hj]
      decide
    · right; right
      refine ⟨by simp; omega, ?_⟩
      have hspan : min (20 - (acc.length : ℚ) * 10) 10 ≤ 0 := by
        refine le_trans (min_le_left _ _) ?_
        have h2 : (2 : ℚ) ≤ (acc.length : ℚ) := by exact_mod_cast hl
        linarith
      have ht := jsTrunc_nonpos _ hspan
      have haY := addYears_le_self cur _ ht
      omega

/-- C4 (failing input): the valid birth date 2004-02-29 (day 12477, a
Sunday, so with week start `"sunday"` it is its own birth week) and
lifespan 20 make `createYearGroups` loop forever: for every iteration
budget the `while` loop is still running, so no group list — in
particular not the claimed 2 groups — is ever produced. -/
theorem C4_feb29_nontermination :
    yearOf 12477 = 2004 ∧ monthOf 12477 = 2 ∧ dayOf 12477 = 29 ∧
    startOfWeek 12477 ((weekStartsOnStringToIndex (some sundayStr)).getD 0) = 12477 ∧
    ∀ fuel : ℕ,
      createYearGroups 20 12477 (weekStartsOnStringToIndex (some sundayStr)) fuel =
        none := by
  refine ⟨by decide, by decide, by decide, by decide, ?_⟩
  intro fuel
  have hws : weekStartsOnStringToIndex (some sundayStr) = some 0 := by decide
  rw [hws]
  show (if (20 : ℚ) ≤ 0 then some [] else
    yearGroupsLoop 20 (some 0) (addYears 12477 (jsTrunc 20)) fuel 12477 []) = none
  rw [if_neg (by norm_num)]
  have he : addYears 12477 (jsTrunc (20 : ℚ)) = 19782 := by decide
  rw [he]
  exact yearGroupsLoop_stuck fuel 12477 [] (Or.inl ⟨rfl, rfl⟩)
